import Mathlib

/-!
Verification of the MCP-Tool-RL core against its specification.

Shallow embedding of:
  * `src/mcp/server.py`   (`MCPServer.register_tool`, `MCPServer.call_tool`) — namespace `MCP`;
  * `src/mcp/client.py`   (`MCPClient.list_tools`) — namespace `MCPC`;
  * `src/selector/sonar.py` (`NetworkMetrics`, `EnhancedSONAR`) — namespace `SONAR`.

Modelling conventions:
  * Python `str` values that are only compared for equality stay `String`;
    the truncated tool description, whose character length matters, is a
    `List Char` (a Python string is a sequence of code points).
  * Python numeric values that flow through arithmetic are `ℚ`
    (exact arithmetic; the claims under scrutiny are about exact formulas).
  * Python `dict`s used as insertion-ordered maps are association lists.
  * A Python callable that may raise is `α → Except String ρ`
    (the `Except.error` payload is `str(e)`).
  * Wall-clock quantities (`datetime.now()`, `execution_time_ms`,
    `last_call`) are outside the embedding: no claim depends on their
    values, only on the shape of the records carrying them.
-/

namespace MCP

/-- `Status` from `src/mcp/protocol.py`. -/
inductive Status where
  | success
  | error
  | pending
deriving DecidableEq, Repr

/-- Aggregate call statistics, `MCPServer.stats` (`src/mcp/server.py`, line 21). -/
structure Stats where
  total_calls : ℕ
  successful_calls : ℕ
  failed_calls : ℕ
  tools_registered : ℕ
deriving DecidableEq, Repr

/-- The ASCII apostrophe character, used in the not-found message. -/
def quoteChar : String := String.singleton (Char.ofNat 39)

/-- Stored tool metadata, the value of `self.tools[name]`
(`src/mcp/server.py`, lines 29-34); the schema type is abstract. -/
structure ToolReg (σ : Type) where
  name : String
  description : List Char
  inputSchema : σ

/-- Server state: the `tools` and `handlers` dicts plus `stats`.
`σ` is the input-schema type, `α` the argument type, `ρ` the handler
result type. -/
structure ServerState (σ α ρ : Type) where
  tools : List (String × ToolReg σ)
  handlers : List (String × (α → Except String ρ))
  stats : Stats

/-- A fresh server: empty maps, zeroed stats (`MCPServer.__init__`). -/
def initialServer (σ α ρ : Type) : ServerState σ α ρ :=
  { tools := [], handlers := [], stats := ⟨0, 0, 0, 0⟩ }

/-- The description truncation of `register_tool`
(`src/mcp/server.py`, line 31):
`description[:200] + "..." if len(description) > 200 else description`. -/
def truncateDesc (d : List Char) : List Char :=
  if d.length > 200 then d.take 200 ++ ['.', '.', '.'] else d

/-- `MCPServer.register_tool` (`src/mcp/server.py`, lines 23-44).
Returns the boolean result and the successor state.  The best-effort
client notification touches no registry state and is dropped. -/
def registerTool (s : ServerState σ α ρ) (name : String) (description : List Char)
    (input_schema : σ) (handler : α → Except String ρ) : Bool × ServerState σ α ρ :=
  if (s.tools.lookup name).isSome then
    (false, s)
  else
    (true,
      { s with
        tools := s.tools ++ [(name, ⟨name, truncateDesc description, input_schema⟩)],
        handlers := s.handlers ++ [(name, handler)],
        stats := { s.stats with tools_registered := s.stats.tools_registered + 1 } })

/-- The result value of `call_tool`: the returned dict, with its
data-bearing fields (`status`, `result`, `error`, `tool`); the
timestamp and `execution_time_ms` carry wall-clock values. -/
structure CallResult (ρ : Type) where
  status : Status
  result : Option ρ := none
  error : Option String := none
  tool : Option String := none

/-- The not-found message of `call_tool` (`src/mcp/server.py`, line 59). -/
def notFoundMsg (name : String) : String :=
  "Инструмент " ++ quoteChar ++ name ++ quoteChar ++ " не найден"

/-- `MCPServer.call_tool` (`src/mcp/server.py`, lines 50-81):
pre-increments `total_calls`; unknown handler yields an error result and
a `failed_calls` increment; then the handler runs, any exception being
caught (`Except.error`) and reported as an error result with a
`failed_calls` increment; success yields a success result and a
`successful_calls` increment. -/
def callTool (s : ServerState σ α ρ) (name : String) (arguments : α) :
    CallResult ρ × ServerState σ α ρ :=
  let s1 : ServerState σ α ρ :=
    { s with stats := { s.stats with total_calls := s.stats.total_calls + 1 } }
  match s1.handlers.lookup name with
  | none =>
      ({ status := Status.error, error := some (notFoundMsg name) },
       { s1 with stats := { s1.stats with failed_calls := s1.stats.failed_calls + 1 } })
  | some h =>
      match h arguments with
      | Except.ok r =>
          ({ status := Status.success, result := some r, tool := some name },
           { s1 with stats :=
              { s1.stats with successful_calls := s1.stats.successful_calls + 1 } })
      | Except.error e =>
          ({ status := Status.error, error := some e, tool := some name },
           { s1 with stats := { s1.stats with failed_calls := s1.stats.failed_calls + 1 } })

/-- A sequence of `call_tool` invocations, applied in order. -/
def runCalls (s : ServerState σ α ρ) (calls : List (String × α)) : ServerState σ α ρ :=
  calls.foldl (fun st c => (callTool st c.1 c.2).2) s

end MCP

namespace MCP

/-- Association-list lookup skips a prefix in which the key is absent. -/
theorem lookup_append_of_eq_none {α β : Type} [BEq α] (l l' : List (α × β)) (k : α)
    (h : l.lookup k = none) : (l ++ l').lookup k = l'.lookup k := by
  induction l with
  | nil => rfl
  | cons p l ih =>
      rw [List.cons_append]
      rcases p with ⟨a, b⟩
      by_cases hk : k == a
      · simp [List.lookup, hk] at h
      · simp [List.lookup, hk] at h ⊢
        exact ih h

/-- One `call_tool` increments `total_calls` by one and exactly one of
`successful_calls`, `failed_calls` by one. -/
theorem callTool_stats_step {σ α ρ : Type} (s : ServerState σ α ρ)
    (name : String) (arguments : α) :
    (callTool s name arguments).2.stats.total_calls = s.stats.total_calls + 1 ∧
    (((callTool s name arguments).2.stats.successful_calls = s.stats.successful_calls + 1 ∧
      (callTool s name arguments).2.stats.failed_calls = s.stats.failed_calls) ∨
     ((callTool s name arguments).2.stats.successful_calls = s.stats.successful_calls ∧
      (callTool s name arguments).2.stats.failed_calls = s.stats.failed_calls + 1)) := by
  rcases hl : s.handlers.lookup name with _ | h
  · simp [callTool, hl]
  · rcases hr : h arguments with e | v <;> simp [callTool, hl, hr]

end MCP

/-- Claim C1: for every registered-or-not tool id and arguments, `call_tool`
always returns a `{status, ...}` value (it is a total function of the
embedding): an unknown id increments `total_calls` and `failed_calls` and
yields a status-error result with the not-found message; a handler
exception is caught and yields `{status: error, error: <message>}` with
`failed_calls` incremented; a handler success yields
`{status: success, result, tool, ...}` with `successful_calls`
incremented. -/
theorem C1_call_tool_boundary {σ α ρ : Type} (s : MCP.ServerState σ α ρ)
    (name : String) (arguments : α) :
    (MCP.callTool s name arguments).2.stats.total_calls = s.stats.total_calls + 1 ∧
    (s.handlers.lookup name = none →
      (MCP.callTool s name arguments).1.status = MCP.Status.error ∧
      (MCP.callTool s name arguments).1.error = some (MCP.notFoundMsg name) ∧
      (MCP.callTool s name arguments).2.stats.failed_calls = s.stats.failed_calls + 1 ∧
      (MCP.callTool s name arguments).2.stats.successful_calls = s.stats.successful_calls) ∧
    (∀ h, s.handlers.lookup name = some h →
      (∀ e, h arguments = Except.error e →
        (MCP.callTool s name arguments).1.status = MCP.Status.error ∧
        (MCP.callTool s name arguments).1.error = some e ∧
        (MCP.callTool s name arguments).1.tool = some name ∧
        (MCP.callTool s name arguments).2.stats.failed_calls = s.stats.failed_calls + 1 ∧
        (MCP.callTool s name arguments).2.stats.successful_calls = s.stats.successful_calls) ∧
      (∀ v, h arguments = Except.ok v →
        (MCP.callTool s name arguments).1.status = MCP.Status.success ∧
        (MCP.callTool s name arguments).1.result = some v ∧
        (MCP.callTool s name arguments).1.tool = some name ∧
        (MCP.callTool s name arguments).2.stats.successful_calls = s.stats.successful_calls + 1 ∧
        (MCP.callTool s name arguments).2.stats.failed_calls = s.stats.failed_calls)) := by
  refine ⟨(MCP.callTool_stats_step s name arguments).1, ?_, ?_⟩
  · intro hl
    simp [MCP.callTool, hl]
  · intro h hl
    constructor
    · intro e he
      simp [MCP.callTool, hl, he]
    · intro v hv
      simp [MCP.callTool, hl, hv]

/-- Witness for C1 at a concrete input: an unknown id on a fresh server. -/
theorem C1_call_tool_boundary_witness :
    (MCP.callTool (MCP.initialServer Unit Unit Unit) "t" ()).1.status = MCP.Status.error ∧
    (MCP.callTool (MCP.initialServer Unit Unit Unit) "t" ()).2.stats.total_calls = 1 := by
  have h := C1_call_tool_boundary (MCP.initialServer Unit Unit Unit) "t" ()
  exact ⟨(h.2.1 rfl).1, h.1⟩

/-- Claim C2: registering an id that is already present returns `false`
and leaves the whole server state (tool metadata, handler map, counters)
unchanged. -/
theorem C2_reregister_noop {σ α ρ : Type} (s : MCP.ServerState σ α ρ)
    (name : String) (description : List Char) (input_schema : σ)
    (handler : α → Except String ρ)
    (hname : (s.tools.lookup name).isSome = true) :
    MCP.registerTool s name description input_schema handler = (false, s) := by
  simp [MCP.registerTool, hname]

/-- Witness for C2: register `"t"` on a fresh server, then re-register it. -/
theorem C2_reregister_noop_witness :
    MCP.registerTool
      (MCP.registerTool (MCP.initialServer Unit Unit Unit) "t" ['a'] ()
        (fun _ => Except.ok ())).2
      "t" ['b'] () (fun _ => Except.ok ()) =
    (false,
      (MCP.registerTool (MCP.initialServer Unit Unit Unit) "t" ['a'] ()
        (fun _ => Except.ok ())).2) :=
  C2_reregister_noop _ "t" ['b'] () (fun _ => Except.ok ()) rfl

set_option maxRecDepth 8192 in
/-- Counterexample to claim C3 as stated: a successful registration of a
201-character description stores a 203-character description (the first
200 characters plus a three-character ellipsis), not one of at most 200
characters. -/
theorem C3_stored_length_counterexample :
    (((MCP.registerTool (MCP.initialServer Unit Unit Unit) "t"
        (List.replicate 201 'a') () (fun _ => Except.ok ())).2.tools.lookup "t").map
      (fun r => r.description.length)) = some 203 ∧ ¬ (203 ≤ 200) := by
  constructor
  · show (some ((MCP.truncateDesc (List.replicate 201 'a')).length)) = some 203
    simp [MCP.truncateDesc]
  · decide

/-- Claim C3 (amended): for every successful registration the stored
description is `truncateDesc` of the given one: descriptions of at most
200 characters are stored verbatim, and longer ones are truncated to
their first 200 characters with a three-character ellipsis appended, so
the stored description has at most 203 (not 200) characters. -/
theorem C3_description_truncation {σ α ρ : Type} (s : MCP.ServerState σ α ρ)
    (name : String) (description : List Char) (input_schema : σ)
    (handler : α → Except String ρ)
    (hfresh : s.tools.lookup name = none) :
    (MCP.registerTool s name description input_schema handler).1 = true ∧
    (MCP.registerTool s name description input_schema handler).2.tools.lookup name =
      some ⟨name, MCP.truncateDesc description, input_schema⟩ ∧
    (description.length ≤ 200 → MCP.truncateDesc description = description) ∧
    (200 < description.length →
      MCP.truncateDesc description = description.take 200 ++ ['.', '.', '.'] ∧
      (MCP.truncateDesc description).length = 203) ∧
    (MCP.truncateDesc description).length ≤ max description.length 203 := by
  have hnone : (s.tools.lookup name).isSome = false := by
    rw [hfresh]; rfl
  refine ⟨?_, ?_, ?_, ?_, ?_⟩
  · simp [MCP.registerTool, hnone]
  · simp only [MCP.registerTool, hnone, Bool.false_eq_true, if_false]
    rw [MCP.lookup_append_of_eq_none _ _ _ hfresh]
    simp [List.lookup]
  · intro hle
    simp [MCP.truncateDesc, Nat.not_lt.mpr hle]
  · intro hgt
    refine ⟨by simp [MCP.truncateDesc, hgt], ?_⟩
    simp only [MCP.truncateDesc, if_pos hgt, List.length_append, List.length_take,
      List.length_cons, List.length_nil]
    omega
  · by_cases hgt : 200 < description.length
    · simp only [MCP.truncateDesc, if_pos hgt, List.length_append, List.length_take,
        List.length_cons, List.length_nil]
      omega
    · simp only [MCP.truncateDesc, if_neg hgt]
      omega

/-- Witness for C3 (amended) at a concrete input: a fresh server and a
one-character description, stored verbatim. -/
theorem C3_description_truncation_witness :
    (MCP.registerTool (MCP.initialServer Unit Unit Unit) "t" ['a'] ()
        (fun _ => Except.ok ())).2.tools.lookup "t" = some ⟨"t", ['a'], ()⟩ := by
  have h := C3_description_truncation (MCP.initialServer Unit Unit Unit) "t" ['a'] ()
    (fun _ => Except.ok ()) rfl
  have htr : MCP.truncateDesc ['a'] = ['a'] := h.2.2.1 (by decide)
  have := h.2.1
  rw [htr] at this
  exact this

namespace MCP

/-- The stats balance `total = successful + failed` is preserved by any
sequence of `call_tool` invocations. -/
theorem runCalls_balance {σ α ρ : Type} (calls : List (String × α)) :
    ∀ s : ServerState σ α ρ,
      s.stats.total_calls = s.stats.successful_calls + s.stats.failed_calls →
      (runCalls s calls).stats.total_calls =
        (runCalls s calls).stats.successful_calls +
        (runCalls s calls).stats.failed_calls := by
  induction calls with
  | nil => intro s h; exact h
  | cons c cs ih =>
      intro s h
      have hstep := callTool_stats_step s c.1 c.2
      have : (callTool s c.1 c.2).2.stats.total_calls =
          (callTool s c.1 c.2).2.stats.successful_calls +
          (callTool s c.1 c.2).2.stats.failed_calls := by
        rcases hstep.2 with ⟨h1, h2⟩ | ⟨h1, h2⟩ <;> rw [hstep.1, h1, h2] <;> omega
      have hfold : runCalls s (c :: cs) = runCalls (callTool s c.1 c.2).2 cs := by
        simp [runCalls]
      rw [hfold]
      exact ih _ this

end MCP

/-- Claim C10: every single `call_tool` invocation increments
`total_calls` by exactly one and exactly one of `successful_calls` /
`failed_calls` by exactly one, and afterwards along any sequence of
invocations from a fresh server the counters satisfy
`total_calls = successful_calls + failed_calls`. -/
theorem C10_stats_accounting {σ α ρ : Type} :
    (∀ (s : MCP.ServerState σ α ρ) (name : String) (arguments : α),
      (MCP.callTool s name arguments).2.stats.total_calls = s.stats.total_calls + 1 ∧
      (((MCP.callTool s name arguments).2.stats.successful_calls =
            s.stats.successful_calls + 1 ∧
        (MCP.callTool s name arguments).2.stats.failed_calls = s.stats.failed_calls) ∨
       ((MCP.callTool s name arguments).2.stats.successful_calls =
            s.stats.successful_calls ∧
        (MCP.callTool s name arguments).2.stats.failed_calls =
            s.stats.failed_calls + 1))) ∧
    (∀ calls : List (String × α),
      (MCP.runCalls (MCP.initialServer σ α ρ) calls).stats.total_calls =
        (MCP.runCalls (MCP.initialServer σ α ρ) calls).stats.successful_calls +
        (MCP.runCalls (MCP.initialServer σ α ρ) calls).stats.failed_calls) :=
  ⟨fun s name arguments => MCP.callTool_stats_step s name arguments,
   fun calls => MCP.runCalls_balance calls (MCP.initialServer σ α ρ) rfl⟩

namespace SONAR

/-- Python list slice `l[-n:]`: the last `n` elements (all of them when
`l` is shorter than `n`). -/
def lastN {α : Type} (n : ℕ) (l : List α) : List α := l.drop (l.length - n)

/-- `NetworkMetrics` (`src/selector/sonar.py`, lines 19-33): per-tool
rolling latency/success history with cumulative counters.  The
`tool_id` tag and the `last_call` wall-clock timestamp (which feeds only
`is_recently_used`) are outside the embedding. -/
structure NetworkMetrics where
  latency_history : List ℚ
  success_history : List Bool
  call_count : ℕ
  success_count : ℕ
deriving DecidableEq, Repr

/-- `NetworkMetrics.avg_latency` (lines 35-40): 100.0 on an empty
history, otherwise the mean of the last 100 samples. -/
def NetworkMetrics.avg_latency (m : NetworkMetrics) : ℚ :=
  if m.latency_history = [] then 100
  else (lastN 100 m.latency_history).sum / ((lastN 100 m.latency_history).length : ℚ)

/-- `NetworkMetrics.success_rate` (lines 42-47): 0.8 before any call,
otherwise `success_count / call_count`. -/
def NetworkMetrics.success_rate (m : NetworkMetrics) : ℚ :=
  if m.call_count = 0 then 0.8
  else (m.success_count : ℚ) / (m.call_count : ℚ)

/-- The local `latency_score` of `reliability_score` (line 53):
`max(0, 1 - avg_latency / 5000)`. -/
def NetworkMetrics.latency_score (m : NetworkMetrics) : ℚ :=
  max 0 (1 - m.avg_latency / 5000)

/-- `NetworkMetrics.reliability_score` (lines 49-55):
`latency_score * 0.4 + success_rate * 0.6`. -/
def NetworkMetrics.reliability_score (m : NetworkMetrics) : ℚ :=
  m.latency_score * 0.4 + m.success_rate * 0.6

/-- `NetworkMetrics.update` (lines 64-77): append the sample, bump the
counters, and if the latency history now exceeds 1000 entries keep only
the most recent 500 of both histories. -/
def NetworkMetrics.update (m : NetworkMetrics) (latency : ℚ) (success : Bool) :
    NetworkMetrics :=
  let lh := m.latency_history ++ [latency]
  let sh := m.success_history ++ [success]
  let cc := m.call_count + 1
  let sc := m.success_count + (if success then 1 else 0)
  if lh.length > 1000 then ⟨lastN 500 lh, lastN 500 sh, cc, sc⟩
  else ⟨lh, sh, cc, sc⟩

/-- A freshly created entry (`update_network_metrics`,
`src/selector/sonar.py`, lines 346-352): empty histories, zero counters. -/
def initialMetrics : NetworkMetrics := ⟨[], [], 0, 0⟩

/-- Apply a sequence of `update` calls to an entry. -/
def applyUpdatesFrom (m : NetworkMetrics) (updates : List (ℚ × Bool)) : NetworkMetrics :=
  updates.foldl (fun acc u => acc.update u.1 u.2) m

/-- The entry reached from a fresh one by a sequence of `update` calls. -/
def applyUpdates (updates : List (ℚ × Bool)) : NetworkMetrics :=
  applyUpdatesFrom initialMetrics updates

/-- Structural invariant of reachable entries built from nonnegative
latencies: counters are consistent and all stored latencies are
nonnegative. -/
def NetworkMetrics.Wf (m : NetworkMetrics) : Prop :=
  m.success_count ≤ m.call_count ∧ ∀ x ∈ m.latency_history, (0 : ℚ) ≤ x

/-- Case form of `update`: the trim condition in terms of the previous
history length. -/
theorem update_eq (m : NetworkMetrics) (latency : ℚ) (success : Bool) :
    m.update latency success =
      if m.latency_history.length + 1 > 1000 then
        ⟨lastN 500 (m.latency_history ++ [latency]),
         lastN 500 (m.success_history ++ [success]),
         m.call_count + 1, m.success_count + (if success then 1 else 0)⟩
      else
        ⟨m.latency_history ++ [latency], m.success_history ++ [success],
         m.call_count + 1, m.success_count + (if success then 1 else 0)⟩ := by
  simp [NetworkMetrics.update]

set_option maxRecDepth 4096 in
theorem update_wf {m : NetworkMetrics} {latency : ℚ} {success : Bool}
    (hm : m.Wf) (hl : 0 ≤ latency) : (m.update latency success).Wf := by
  have hmem : ∀ x ∈ m.latency_history ++ [latency], (0 : ℚ) ≤ x := by
    intro x hx
    rcases List.mem_append.mp hx with hx | hx
    · exact hm.2 x hx
    · rcases List.mem_singleton.mp hx with rfl; exact hl
  have hsc : m.success_count + (if success then 1 else 0) ≤ m.call_count + 1 := by
    have := hm.1
    rcases success <;> simp <;> omega
  have hsub : ∀ x ∈ lastN 500 (m.latency_history ++ [latency]), (0 : ℚ) ≤ x := by
    intro x hx
    refine hmem x ?_
    have : lastN 500 (m.latency_history ++ [latency]) ⊆ m.latency_history ++ [latency] :=
      List.drop_subset _ _
    exact this hx
  rw [update_eq]
  split
  · exact ⟨hsc, hsub⟩
  · exact ⟨hsc, hmem⟩

theorem applyUpdatesFrom_wf {updates : List (ℚ × Bool)} :
    ∀ {m : NetworkMetrics}, m.Wf → (∀ u ∈ updates, (0 : ℚ) ≤ u.1) →
      (applyUpdatesFrom m updates).Wf := by
  induction updates with
  | nil => intro m hm _; exact hm
  | cons u us ih =>
      intro m hm hpos
      have h1 : (m.update u.1 u.2).Wf := update_wf hm (hpos u (List.mem_cons_self u us))
      have hfold : applyUpdatesFrom m (u :: us) = applyUpdatesFrom (m.update u.1 u.2) us := by
        simp [applyUpdatesFrom]
      rw [hfold]
      exact ih h1 (fun v hv => hpos v (List.mem_cons_of_mem u hv))

theorem success_rate_bounds {m : NetworkMetrics} (hm : m.Wf) :
    0 ≤ m.success_rate ∧ m.success_rate ≤ 1 := by
  unfold NetworkMetrics.success_rate
  split
  · norm_num
  · rename_i hcc
    have hc : (0 : ℚ) < (m.call_count : ℚ) := by
      exact_mod_cast Nat.pos_of_ne_zero hcc
    constructor
    · positivity
    · rw [div_le_one hc]
      exact_mod_cast hm.1

theorem avg_latency_nonneg {m : NetworkMetrics} (hm : m.Wf) : 0 ≤ m.avg_latency := by
  unfold NetworkMetrics.avg_latency
  split
  · norm_num
  · apply div_nonneg
    · apply List.sum_nonneg
      intro x hx
      exact hm.2 x (List.drop_subset _ _ hx)
    · positivity

theorem latency_score_bounds {m : NetworkMetrics} (hm : m.Wf) :
    0 ≤ m.latency_score ∧ m.latency_score ≤ 1 := by
  have havg := avg_latency_nonneg hm
  unfold NetworkMetrics.latency_score
  constructor
  · exact le_max_left 0 _
  · apply max_le
    · norm_num
    · have : (0 : ℚ) ≤ m.avg_latency / 5000 := by positivity
      linarith

theorem reliability_score_bounds {m : NetworkMetrics} (hm : m.Wf) :
    0 ≤ m.reliability_score ∧ m.reliability_score ≤ 1 := by
  obtain ⟨hl0, hl1⟩ := latency_score_bounds hm
  obtain ⟨hs0, hs1⟩ := success_rate_bounds hm
  unfold NetworkMetrics.reliability_score
  constructor <;> nlinarith

end SONAR

/-- Counterexample to claim C4 as stated: a reachable entry built by one
`update` call with a negative latency has a reliability score of 9,
outside [0, 1] (the code accepts any latency value and the latency score
is unbounded above for negative averages). -/
theorem C4_reliability_counterexample :
    ¬ ((SONAR.applyUpdates [(-100000, true)]).reliability_score ≤ 1) := by
  have hstate : SONAR.applyUpdates [(-100000, true)] = ⟨[-100000], [true], 1, 1⟩ := by
    simp [SONAR.applyUpdates, SONAR.applyUpdatesFrom, SONAR.NetworkMetrics.update,
      SONAR.initialMetrics, SONAR.lastN]
  have hval : (SONAR.applyUpdates [(-100000, true)]).reliability_score = 9 := by
    rw [hstate]
    rw [SONAR.NetworkMetrics.reliability_score, SONAR.NetworkMetrics.latency_score,
      SONAR.NetworkMetrics.avg_latency, SONAR.NetworkMetrics.success_rate]
    norm_num [SONAR.lastN]
  rw [hval]
  norm_num

/-- Claim C4 (amended): `avg_latency` on an empty history is exactly 100;
`success_rate` with zero calls is exactly 0.8; `reliability_score` is
`0.4·latency_score + 0.6·success_rate` with
`latency_score = max(0, 1 − avg_latency/5000)`; and for every entry
reachable by a sequence of `update` calls with NONNEGATIVE latencies the
reliability score lies within [0, 1] (without the nonnegativity
restriction it does not, see the counterexample). -/
theorem C4_network_metrics_bounds :
    (∀ m : SONAR.NetworkMetrics, m.latency_history = [] → m.avg_latency = 100) ∧
    (∀ m : SONAR.NetworkMetrics, m.call_count = 0 → m.success_rate = 0.8) ∧
    (∀ m : SONAR.NetworkMetrics,
      m.reliability_score = max 0 (1 - m.avg_latency / 5000) * 0.4 + m.success_rate * 0.6) ∧
    (∀ updates : List (ℚ × Bool), (∀ u ∈ updates, (0 : ℚ) ≤ u.1) →
      0 ≤ (SONAR.applyUpdates updates).reliability_score ∧
      (SONAR.applyUpdates updates).reliability_score ≤ 1) := by
  refine ⟨?_, ?_, ?_, ?_⟩
  · intro m h
    simp [SONAR.NetworkMetrics.avg_latency, h]
  · intro m h
    simp [SONAR.NetworkMetrics.success_rate, h]
  · intro m
    rfl
  · intro updates hpos
    have hwf : (SONAR.applyUpdates updates).Wf := by
      apply SONAR.applyUpdatesFrom_wf _ hpos
      exact ⟨Nat.le_refl 0, by simp [SONAR.initialMetrics]⟩
    exact SONAR.reliability_score_bounds hwf

/-- Witness for C4 (amended) at a concrete input: one 100 ms successful
call. -/
theorem C4_network_metrics_bounds_witness :
    0 ≤ (SONAR.applyUpdates [(100, true)]).reliability_score ∧
    (SONAR.applyUpdates [(100, true)]).reliability_score ≤ 1 :=
  C4_network_metrics_bounds.2.2.2 [(100, true)]
    (by intro u hu; rcases List.mem_singleton.mp hu with rfl; norm_num)

namespace SONAR

theorem applyUpdatesFrom_append (m : NetworkMetrics) (a b : List (ℚ × Bool)) :
    applyUpdatesFrom m (a ++ b) = applyUpdatesFrom (applyUpdatesFrom m a) b := by
  simp [applyUpdatesFrom, List.foldl_append]

/-- While the latency history stays within the 1000 cap, a run of
`update` calls is a plain append of the submitted samples. -/
theorem applyUpdatesFrom_no_trim (l : List (ℚ × Bool)) :
    ∀ m : NetworkMetrics, m.latency_history.length + l.length ≤ 1000 →
      (applyUpdatesFrom m l).latency_history = m.latency_history ++ l.map Prod.fst ∧
      (applyUpdatesFrom m l).success_history = m.success_history ++ l.map Prod.snd := by
  induction l with
  | nil => intro m h; simp [applyUpdatesFrom]
  | cons u us ih =>
      intro m h
      have hcond : ¬ (m.latency_history.length + 1 > 1000) := by
        simp at h ⊢; omega
      have hupd : m.update u.1 u.2 =
          ⟨m.latency_history ++ [u.1], m.success_history ++ [u.2],
           m.call_count + 1, m.success_count + (if u.2 then 1 else 0)⟩ := by
        rw [update_eq, if_neg hcond]
      have hfold : applyUpdatesFrom m (u :: us) = applyUpdatesFrom (m.update u.1 u.2) us := by
        simp [applyUpdatesFrom]
      have hlen : (m.update u.1 u.2).latency_history.length + us.length ≤ 1000 := by
        rw [hupd]
        simp at h ⊢
        omega
      obtain ⟨ih1, ih2⟩ := ih (m.update u.1 u.2) hlen
      rw [hfold, ih1, ih2, hupd]
      simp

/-- One `update` keeps the latency-history length within the 1000 cap. -/
theorem update_length_le {m : NetworkMetrics} (h : m.latency_history.length ≤ 1000)
    (x : ℚ) (b : Bool) : (m.update x b).latency_history.length ≤ 1000 := by
  rw [update_eq]
  split
  · simp [lastN]
    omega
  · simp at *
    omega

/-- Any run of `update` calls from a fresh entry keeps the stored sample
count within the 1000 cap. -/
theorem applyUpdates_length_le (updates : List (ℚ × Bool)) :
    (applyUpdates updates).latency_history.length ≤ 1000 := by
  suffices h : ∀ (l : List (ℚ × Bool)) (m : NetworkMetrics),
      m.latency_history.length ≤ 1000 →
      (applyUpdatesFrom m l).latency_history.length ≤ 1000 by
    exact h updates initialMetrics (by simp [initialMetrics])
  intro l
  induction l with
  | nil => intro m hm; exact hm
  | cons u us ih =>
      intro m hm
      have hfold : applyUpdatesFrom m (u :: us) = applyUpdatesFrom (m.update u.1 u.2) us := by
        simp [applyUpdatesFrom]
      rw [hfold]
      exact ih _ (update_length_le hm u.1 u.2)

end SONAR

set_option maxRecDepth 100000 in
/-- Claim C5: after a sequence of exactly 1001 `update` calls on a fresh
entry, the stored histories are exactly the most recent 500 submitted
samples in submission order (so the stored count is 500 ≤ 1000), and in
general any run of `update` calls keeps the stored count within 1000
because trimming keeps only the most recent 500 whenever the history
exceeds 1000 entries. -/
theorem C5_history_trimming (updates : List (ℚ × Bool))
    (h : updates.length = 1001) :
    (SONAR.applyUpdates updates).latency_history = (updates.map Prod.fst).drop 501 ∧
    (SONAR.applyUpdates updates).success_history = (updates.map Prod.snd).drop 501 ∧
    (SONAR.applyUpdates updates).latency_history.length = 500 ∧
    (SONAR.applyUpdates updates).latency_history.length ≤ 1000 ∧
    (∀ us : List (ℚ × Bool), (SONAR.applyUpdates us).latency_history.length ≤ 1000) := by
  have hab : updates.take 1000 ++ updates.drop 1000 = updates := List.take_append_drop _ _
  have hb : (updates.drop 1000).length = 1 := by
    simp [h]
  obtain ⟨u, hu⟩ := List.length_eq_one.mp hb
  have ha : (updates.take 1000).length = 1000 := by
    simp [h]
  have h1 := SONAR.applyUpdatesFrom_no_trim (updates.take 1000) SONAR.initialMetrics
    (by simp [SONAR.initialMetrics, ha])
  simp only [show SONAR.initialMetrics.latency_history = ([] : List ℚ) from rfl,
    show SONAR.initialMetrics.success_history = ([] : List Bool) from rfl,
    List.nil_append] at h1
  have hupdates : updates.take 1000 ++ [u] = updates := by
    rw [← hu, hab]
  have hsplit : SONAR.applyUpdates updates =
      (SONAR.applyUpdatesFrom SONAR.initialMetrics (updates.take 1000)).update u.1 u.2 :=
    calc SONAR.applyUpdates updates
        = SONAR.applyUpdatesFrom SONAR.initialMetrics
            (updates.take 1000 ++ updates.drop 1000) := by
          rw [hab]
          rfl
      _ = SONAR.applyUpdatesFrom
            (SONAR.applyUpdatesFrom SONAR.initialMetrics (updates.take 1000))
            (updates.drop 1000) := SONAR.applyUpdatesFrom_append _ _ _
      _ = (SONAR.applyUpdatesFrom SONAR.initialMetrics (updates.take 1000)).update u.1 u.2 := by
          rw [hu]
          simp [SONAR.applyUpdatesFrom]
  have hm1len : (SONAR.applyUpdatesFrom SONAR.initialMetrics
      (updates.take 1000)).latency_history.length = 1000 := by
    rw [h1.1, List.length_map, ha]
  have hcond : (SONAR.applyUpdatesFrom SONAR.initialMetrics
      (updates.take 1000)).latency_history.length + 1 > 1000 := by
    rw [hm1len]
    omega
  have hmapfst : (SONAR.applyUpdatesFrom SONAR.initialMetrics
      (updates.take 1000)).latency_history ++ [u.1] = updates.map Prod.fst := by
    rw [h1.1]
    have : (updates.take 1000).map Prod.fst ++ [u].map Prod.fst =
        (updates.take 1000 ++ [u]).map Prod.fst := (List.map_append _ _ _).symm
    simp only [List.map_cons, List.map_nil] at this
    rw [this, hupdates]
  have hmapsnd : (SONAR.applyUpdatesFrom SONAR.initialMetrics
      (updates.take 1000)).success_history ++ [u.2] = updates.map Prod.snd := by
    rw [h1.2]
    have : (updates.take 1000).map Prod.snd ++ [u].map Prod.snd =
        (updates.take 1000 ++ [u]).map Prod.snd := (List.map_append _ _ _).symm
    simp only [List.map_cons, List.map_nil] at this
    rw [this, hupdates]
  have hfin : SONAR.applyUpdates updates =
      ⟨SONAR.lastN 500 (updates.map Prod.fst), SONAR.lastN 500 (updates.map Prod.snd),
       (SONAR.applyUpdatesFrom SONAR.initialMetrics (updates.take 1000)).call_count + 1,
       (SONAR.applyUpdatesFrom SONAR.initialMetrics (updates.take 1000)).success_count +
         (if u.2 then 1 else 0)⟩ := by
    rw [hsplit, SONAR.update_eq, if_pos hcond, hmapfst, hmapsnd]
  have hlast : ∀ l : List ℚ, l.length = 1001 → SONAR.lastN 500 l = l.drop 501 := by
    intro l hl
    rw [SONAR.lastN, hl]
  have hlast2 : ∀ l : List Bool, l.length = 1001 → SONAR.lastN 500 l = l.drop 501 := by
    intro l hl
    rw [SONAR.lastN, hl]
  refine ⟨?_, ?_, ?_, ?_, SONAR.applyUpdates_length_le⟩
  · rw [hfin]
    exact hlast _ (by simp [h])
  · rw [hfin]
    exact hlast2 _ (by simp [h])
  · rw [hfin]
    show (SONAR.lastN 500 (updates.map Prod.fst)).length = 500
    rw [hlast _ (by simp [h])]
    simp [h]
  · rw [hfin]
    show (SONAR.lastN 500 (updates.map Prod.fst)).length ≤ 1000
    rw [hlast _ (by simp [h])]
    simp [h]

/-- Witness for C5 at a concrete input: 1001 identical samples. -/
theorem C5_history_trimming_witness :
    (SONAR.applyUpdates (List.replicate 1001 ((0 : ℚ), true))).latency_history.length =
      500 :=
  (C5_history_trimming (List.replicate 1001 ((0 : ℚ), true))
    (List.length_replicate 1001 _)).2.2.1

namespace SONAR

/-- The counting loop of `_get_diversity_score`
(`src/selector/sonar.py`, lines 284-287): how many of the last 20
selection records chose this tool id. -/
def countRecentUses (tool_id : String) (history : List String) : ℕ :=
  (lastN 20 history).foldl (fun n s => if s = tool_id then n + 1 else n) 0

/-- `EnhancedSONAR._get_diversity_score` (lines 281-290):
`max(0.1, 1.0 - recent_uses / 20)`.  The selection history is modelled
by the chosen tool ids of its records (the only field the function
reads). -/
def getDiversityScore (tool_id : String) (history : List String) : ℚ :=
  max 0.1 (1 - (countRecentUses tool_id history : ℚ) / 20)

theorem count_foldl_eq_countP (tool_id : String) (l : List String) :
    ∀ n : ℕ, l.foldl (fun n s => if s = tool_id then n + 1 else n) n =
      n + l.countP (fun s => s == tool_id) := by
  induction l with
  | nil => intro n; simp
  | cons x xs ih =>
      intro n
      by_cases hx : x = tool_id
      · subst hx
        simp [List.foldl_cons, List.countP_cons, ih (n + 1)]
        omega
      · have hx2 : (x == tool_id) = false := by
          simp [hx]
        simp only [List.foldl_cons, List.countP_cons, hx2, if_neg hx]
        rw [ih n]
        simp

theorem countRecentUses_eq_countP (tool_id : String) (history : List String) :
    countRecentUses tool_id history =
      (lastN 20 history).countP (fun s => s == tool_id) := by
  rw [countRecentUses, count_foldl_eq_countP]
  simp

end SONAR

/-- Claim C6: the diversity component equals
`max(0.1, 1 - recentUses/20)` where `recentUses` counts how many of the
last 20 selection records chose this tool id, and when all of the last
20 records chose it the component is exactly 0.1. -/
theorem C6_diversity_floor (tool_id : String) (history : List String) :
    SONAR.getDiversityScore tool_id history =
      max 0.1 (1 - ((SONAR.lastN 20 history).countP (fun s => s == tool_id) : ℚ) / 20) ∧
    (20 ≤ history.length →
      (∀ s ∈ SONAR.lastN 20 history, s = tool_id) →
      SONAR.getDiversityScore tool_id history = 0.1) := by
  constructor
  · rw [SONAR.getDiversityScore, SONAR.countRecentUses_eq_countP]
  · intro hlen hall
    have hN : (SONAR.lastN 20 history).length = 20 := by
      rw [SONAR.lastN, List.length_drop]
      omega
    have hcount : (SONAR.lastN 20 history).countP (fun s => s == tool_id) = 20 := by
      have h1 : (SONAR.lastN 20 history).countP (fun s => s == tool_id) =
          (SONAR.lastN 20 history).length :=
        List.countP_eq_length.mpr (fun s hs => by simp [hall s hs])
      rw [h1, hN]
    rw [SONAR.getDiversityScore, SONAR.countRecentUses_eq_countP, hcount]
    norm_num

/-- Witness for C6 at a concrete input: a history of 20 records that all
chose the same tool. -/
theorem C6_diversity_floor_witness :
    SONAR.getDiversityScore "a" (List.replicate 20 "a") = 0.1 :=
  (C6_diversity_floor "a" (List.replicate 20 "a")).2
    (by rw [List.length_replicate])
    (by
      intro s hs
      have hsub : SONAR.lastN 20 (List.replicate 20 "a") ⊆ List.replicate 20 "a" :=
        List.drop_subset _ _
      exact List.eq_of_mem_replicate (hsub hs))

namespace SONAR

/-- `ToolSpec` (`src/core/hf_loader.py`, lines 27-47): the fields the
selection engine reads.  Parameter dicts are reduced to their names
(the only field `_filter_by_context` reads from them); the execution
metadata (endpoint, method, ...) is opaque to selection and omitted. -/
structure ToolSpec where
  id : String
  name : String
  description : List Char
  category : String
  parameters : List String
deriving DecidableEq, Repr

/-- The `context` dict of `select_tool`: an optional `category` and the
`required_params` names (default `[]`). -/
structure Context where
  category : Option String
  required_params : List String

/-- `EnhancedSONAR._filter_by_context` (`src/selector/sonar.py`, lines
196-219): with no context all tools pass; otherwise keep tools whose
category matches case-insensitively (when one is requested) and whose
declared parameter names contain every required name
(case-insensitive subset check). -/
def filterByContext (tools : List ToolSpec) (context : Option Context) : List ToolSpec :=
  match context with
  | none => tools
  | some ctx =>
      tools.filter (fun t =>
        (match ctx.category with
         | none => true
         | some c => t.category.toLower == c.toLower) &&
        ctx.required_params.all (fun p =>
          (t.parameters.map String.toLower).contains p.toLower))

/-- One entry of the `alternatives` list (lines 154-161). -/
structure Alternative where
  id : String
  name : String
  score : ℚ
  category : String
deriving DecidableEq, Repr

/-- The second component of `select_tool`'s return: the error dict of
the failure paths, or the data-bearing fields of `selection_info`. -/
inductive SelectionOutcome where
  | failure (error : String)
  | selected (id : String) (score : ℚ) (alternatives : List Alternative)
deriving DecidableEq, Repr

/-- Stable descending insertion: the inserted (earlier) element goes
before the first strictly smaller score and in front of equal
scores, which is exactly the order Python's stable
`sort(key=score, reverse=True)` produces. -/
def insertDesc {α : Type} (x : α × ℚ) : List (α × ℚ) → List (α × ℚ)
  | [] => [x]
  | y :: ys => if y.2 ≤ x.2 then x :: y :: ys else y :: insertDesc x ys

/-- Stable descending sort by score, `scored_tools.sort(key=lambda x:
x[1], reverse=True)` (line 150). -/
def isortDesc {α : Type} : List (α × ℚ) → List (α × ℚ)
  | [] => []
  | x :: xs => insertDesc x (isortDesc xs)

/-- Steps 4-5 of `select_tool` (lines 149-161): sort the scored
candidates descending and pick `sorted[0]`, with `sorted[1:4]` as
alternatives; `sorted[0]` on an empty list raises `IndexError`,
reported here as `none`. -/
def pickBest (scored : List (ToolSpec × ℚ)) :
    Option (ToolSpec × ℚ) × List (ToolSpec × ℚ) :=
  match isortDesc scored with
  | [] => (none, [])
  | b :: rest => (some b, rest.take 3)

/-- The dict comprehension `{tool_id: similarity}` (line 130) read back
through `.get(id, 0.5)` (line 144); on duplicate ids the last binding
wins, hence the reversed search. -/
def semScoreLookup (results : List (ToolSpec × ℚ)) (id : String) : ℚ :=
  match results.reverse.find? (fun r => r.1.id == id) with
  | some r => r.2
  | none => 0.5

/-- Steps 1-3 of `select_tool` (lines 119-137): context filter, then
semantic narrowing through the embedder boundary (`semSearch` stands
for `embedder.semantic_search(query, candidates, top_k)` and is
consumed, not implemented). -/
def narrowCandidates (topK : ℕ)
    (semSearch : String → List ToolSpec → ℕ → List (ToolSpec × ℚ))
    (tools : List ToolSpec) (query : String) (context : Option Context)
    (useSemantic : Bool) : List ToolSpec :=
  let c0 := filterByContext tools context
  if useSemantic && !c0.isEmpty then (semSearch query c0 topK).map Prod.fst
  else c0

/-- `EnhancedSONAR.select_tool` (lines 94-194) with its external pieces
as parameters: `semSearch` is the embedder boundary and `score`
abstracts `_compute_tool_score` at fixed metrics/history/config (its
second argument is the candidate's semantic score, 0.5 when semantic
narrowing was skipped).  Wall-clock fields of `selection_info` and the
trailing history append carry no data the claims touch. -/
def selectTool (topK : ℕ)
    (semSearch : String → List ToolSpec → ℕ → List (ToolSpec × ℚ))
    (score : ToolSpec → ℚ → ℚ)
    (tools : List ToolSpec) (query : String) (context : Option Context)
    (useSemantic : Bool) : Option ToolSpec × SelectionOutcome :=
  let c0 := filterByContext tools context
  let results := semSearch query c0 topK
  let candidates := narrowCandidates topK semSearch tools query context useSemantic
  if candidates.isEmpty then
    (none, SelectionOutcome.failure "No suitable tools found")
  else
    let semOf : ToolSpec → ℚ := fun t =>
      if useSemantic && !c0.isEmpty then semScoreLookup results t.id else 0.5
    let scored := (candidates.take topK).map (fun t => (t, score t (semOf t)))
    match pickBest scored with
    | (none, _) => (none, SelectionOutcome.failure "list index out of range")
    | (some b, alts) =>
        (some b.1,
         SelectionOutcome.selected b.1.id b.2
           (alts.map (fun p => ⟨p.1.id, p.1.name, p.2, p.1.category⟩)))

theorem head?_eq_some_exists {α : Type} {l : List α} {a : α}
    (h : l.head? = some a) : ∃ t, l = a :: t := by
  cases l with
  | nil => simp at h
  | cons x t =>
      simp at h
      exact ⟨t, by rw [h]⟩

theorem insertDesc_cons_head {α : Type} (x y : α × ℚ) (ys : List (α × ℚ)) :
    (insertDesc x (y :: ys)).head? = some (if y.2 ≤ x.2 then x else y) := by
  simp only [insertDesc]
  split <;> simp

/-- The head of the stable descending sort is the first-seen maximum:
its score dominates every element, and every element strictly before it
in the input has a strictly smaller score. -/
theorem isortDesc_head_spec {α : Type} (l : List (α × ℚ)) (hne : l ≠ []) :
    ∃ i : Fin l.length,
      (isortDesc l).head? = some (l.get i) ∧
      (∀ j : Fin l.length, (l.get j).2 ≤ (l.get i).2) ∧
      (∀ j : Fin l.length, (j : ℕ) < (i : ℕ) → (l.get j).2 < (l.get i).2) := by
  induction l with
  | nil => exact absurd rfl hne
  | cons x xs ih =>
      by_cases hxs : xs = []
      · subst hxs
        refine ⟨⟨0, by simp⟩, rfl, ?_, ?_⟩
        · intro j
          rcases j with ⟨jv, hjv⟩
          simp only [List.length_cons, List.length_nil] at hjv
          have hj0 : jv = 0 := by omega
          subst hj0
          exact le_refl _
        · intro j hj
          exact absurd hj (Nat.not_lt_zero _)
      · obtain ⟨i', hhead, hmax, hfirst⟩ := ih hxs
        obtain ⟨t, ht⟩ := head?_eq_some_exists hhead
        have hsort : isortDesc (x :: xs) = insertDesc x (xs.get i' :: t) := by
          rw [show isortDesc (x :: xs) = insertDesc x (isortDesc xs) from rfl, ht]
        by_cases hcmp : (xs.get i').2 ≤ x.2
        · refine ⟨⟨0, by simp⟩, ?_, ?_, ?_⟩
          · rw [hsort, insertDesc_cons_head, if_pos hcmp]
            rfl
          · intro j
            rcases j with ⟨jv, hjv⟩
            cases jv with
            | zero => exact le_refl _
            | succ k =>
                simp only [List.length_cons] at hjv
                exact le_trans (hmax ⟨k, by omega⟩) hcmp
          · intro j hj
            exact absurd hj (Nat.not_lt_zero _)
        · have hlt : x.2 < (xs.get i').2 := lt_of_not_le hcmp
          refine ⟨⟨i'.val + 1, by
            have := i'.isLt
            simp only [List.length_cons]
            omega⟩, ?_, ?_, ?_⟩
          · rw [hsort, insertDesc_cons_head, if_neg hcmp]
            rfl
          · intro j
            rcases j with ⟨jv, hjv⟩
            cases jv with
            | zero => exact le_of_lt hlt
            | succ k =>
                simp only [List.length_cons] at hjv
                exact hmax ⟨k, by omega⟩
          · intro j hj
            rcases j with ⟨jv, hjv⟩
            cases jv with
            | zero => exact hlt
            | succ k =>
                simp only [List.length_cons] at hjv
                have hj2 : k + 1 < i'.val + 1 := hj
                have hk : k < i'.val := by omega
                exact hfirst ⟨k, by omega⟩ hk

end SONAR

namespace SONAR

/-- A concrete scored candidate list (with a tie on the maximal score)
used as the C7 witness input. -/
def demoScored : List (ToolSpec × ℚ) :=
  [(⟨"a", "A", [], "g", []⟩, 1/2),
   (⟨"b", "B", [], "g", []⟩, 9/10),
   (⟨"c", "C", [], "g", []⟩, 9/10)]

end SONAR

/-- Claim C7: on a non-empty scored candidate list the selection stage
picks a candidate of maximal final score, and on ties the candidate
earliest in the original order wins (no earlier candidate has a score
that is not strictly smaller); the next three candidates of the sorted
order are the alternatives. -/
theorem C7_selection_order (scored : List (SONAR.ToolSpec × ℚ)) (hne : scored ≠ []) :
    ∃ i : Fin scored.length,
      (SONAR.pickBest scored).1 = some (scored.get i) ∧
      (SONAR.pickBest scored).2 = (SONAR.isortDesc scored).tail.take 3 ∧
      (∀ j : Fin scored.length, (scored.get j).2 ≤ (scored.get i).2) ∧
      (∀ j : Fin scored.length, (j : ℕ) < (i : ℕ) →
        (scored.get j).2 < (scored.get i).2) := by
  obtain ⟨i, hhead, hmax, hfirst⟩ := SONAR.isortDesc_head_spec scored hne
  obtain ⟨t, ht⟩ := SONAR.head?_eq_some_exists hhead
  refine ⟨i, ?_, ?_, hmax, hfirst⟩
  · simp [SONAR.pickBest, ht]
  · simp [SONAR.pickBest, ht]

/-- Witness for C7 at the concrete input `demoScored`. -/
theorem C7_selection_order_witness :
    ∃ i : Fin SONAR.demoScored.length,
      (SONAR.pickBest SONAR.demoScored).1 = some (SONAR.demoScored.get i) ∧
      (SONAR.pickBest SONAR.demoScored).2 =
        (SONAR.isortDesc SONAR.demoScored).tail.take 3 ∧
      (∀ j : Fin SONAR.demoScored.length,
        (SONAR.demoScored.get j).2 ≤ (SONAR.demoScored.get i).2) ∧
      (∀ j : Fin SONAR.demoScored.length, (j : ℕ) < (i : ℕ) →
        (SONAR.demoScored.get j).2 < (SONAR.demoScored.get i).2) :=
  C7_selection_order SONAR.demoScored (by simp [SONAR.demoScored])

/-- Claim C8: when no candidate survives filtering and narrowing,
`select_tool` returns the pair `(none, {error: "No suitable tools
found"})` as an ordinary value (the embedding is a total function; the
code path is a plain `return`, not a raise). -/
theorem C8_no_candidates (topK : ℕ)
    (semSearch : String → List SONAR.ToolSpec → ℕ → List (SONAR.ToolSpec × ℚ))
    (score : SONAR.ToolSpec → ℚ → ℚ)
    (tools : List SONAR.ToolSpec) (query : String) (context : Option SONAR.Context)
    (useSemantic : Bool)
    (h : SONAR.narrowCandidates topK semSearch tools query context useSemantic = []) :
    SONAR.selectTool topK semSearch score tools query context useSemantic =
      (none, SONAR.SelectionOutcome.failure "No suitable tools found") := by
  simp [SONAR.selectTool, h]

/-- Witness for C8 at a concrete input: an empty catalog. -/
theorem C8_no_candidates_witness :
    SONAR.selectTool 5 (fun _ _ _ => []) (fun _ _ => 0) [] "q" none true =
      (none, SONAR.SelectionOutcome.failure "No suitable tools found") :=
  C8_no_candidates 5 (fun _ _ _ => []) (fun _ _ => 0) [] "q" none true rfl

namespace MCPC

/-- Client state, the fields of `MCPClient` that `list_tools` touches
(`src/mcp/client.py`, lines 10-20). -/
structure ClientState (τ : Type) where
  connected : Bool
  tools_cache : List τ

/-- The response dict as consumed by `list_tools`: `resp.get("tools",
[])` (line 96), `none` when the key is missing. -/
structure ListToolsResponse (τ : Type) where
  tools : Option (List τ)

/-- `MCPClient.list_tools` (`src/mcp/client.py`, lines 92-101).  `send`
is the outcome of `await self.send_message({type: LIST_TOOLS})`; an
`Except.error` models any exception the `try` block raises.  On success
the cache is replaced by the response's tools (default `[]`) and
returned; on an exception the method logs and returns `[]` WITHOUT
touching `tools_cache`. -/
def listTools {τ ε : Type} (c : ClientState τ) (send : Except ε (ListToolsResponse τ)) :
    List τ × ClientState τ :=
  match send with
  | Except.ok resp =>
      let ts := resp.tools.getD []
      (ts, { c with tools_cache := ts })
  | Except.error _ => ([], c)

end MCPC

/-- Counterexample to claim C9 as stated: a client whose cache holds one
tool and whose refresh fails returns `[]` but keeps the non-empty cache
— the cache is NOT reduced to empty. -/
theorem C9_cache_counterexample :
    (MCPC.listTools (⟨true, [0]⟩ : MCPC.ClientState ℕ)
        (Except.error "boom" : Except String (MCPC.ListToolsResponse ℕ))).1 = [] ∧
    ¬ ((MCPC.listTools (⟨true, [0]⟩ : MCPC.ClientState ℕ)
        (Except.error "boom" : Except String (MCPC.ListToolsResponse ℕ))).2.tools_cache
      = []) := by
  constructor
  · rfl
  · simp [MCPC.listTools]

/-- Claim C9 (amended): every error during the refresh is caught and the
call returns an empty list as an ordinary value (the embedding is total),
but the cached tool list is left UNCHANGED, not emptied; on success the
cache is replaced by the received list. -/
theorem C9_list_tools_error_handling {τ ε : Type} (c : MCPC.ClientState τ)
    (send : Except ε (MCPC.ListToolsResponse τ)) :
    (∀ e, send = Except.error e →
      MCPC.listTools c send = ([], c)) ∧
    (∀ resp, send = Except.ok resp →
      (MCPC.listTools c send).1 = resp.tools.getD [] ∧
      (MCPC.listTools c send).2.tools_cache = resp.tools.getD [] ∧
      (MCPC.listTools c send).2.connected = c.connected) := by
  cases send <;> simp [MCPC.listTools]

/-- Witness for C9 (amended) at a concrete input: a failing refresh on a
client with a cached tool. -/
theorem C9_list_tools_error_handling_witness :
    MCPC.listTools (⟨true, [0]⟩ : MCPC.ClientState ℕ)
        (Except.error "boom" : Except String (MCPC.ListToolsResponse ℕ)) =
      ([], (⟨true, [0]⟩ : MCPC.ClientState ℕ)) :=
  (C9_list_tools_error_handling (⟨true, [0]⟩ : MCPC.ClientState ℕ)
      (Except.error "boom")).1 "boom" rfl
